import Mathlib

/-!
# Verification of the smart-meter-gateway reading pipeline

Shallow embedding of the reading-normalization core of the `emh-casa-go`
repository: the EMH CASA client (`emhcasa` package), the Theben Conexa
client (`theben` package), the PPC client (`ppc` package) and the OBIS
code registry (`obis` package).  Strings are modelled as sequences of
characters (faithful to the Go byte-level code for ASCII data); `float64`
arithmetic is modelled exactly over `ℚ`; wall-clock timestamps are an
opaque `Nat` parameter threaded through (their parsing never influences
any other field); network fetches are modelled by passing the decoded
response data as an argument to the pure post-fetch computation.
-/

namespace SMGW

/-- Decimal digit predicate, `c >= '0' && c <= '9'` as in the Go sources. -/
def isDigitChar (c : Char) : Bool :=
  '0' ≤ c && c ≤ '9'

/-- Value of a hexadecimal digit, `none` for a non-hex character.
Mirrors the per-character step of Go `strconv.ParseInt(s, 16, 64)`. -/
def hexDigitVal (c : Char) : Option Nat :=
  if '0' ≤ c ∧ c ≤ '9' then some (c.toNat - 48)
  else if 'a' ≤ c ∧ c ≤ 'f' then some (c.toNat - 97 + 10)
  else if 'A' ≤ c ∧ c ≤ 'F' then some (c.toNat - 65 + 10)
  else none

/-- Parse a non-empty string of hexadecimal digits to its value.
Fails on the empty list or on any non-hex character. -/
def parseHexDigits : List Char → Option Nat
  | [] => none
  | [c] => hexDigitVal c
  | c :: rest => do
      let d ← hexDigitVal c
      let r ← parseHexDigits rest
      pure (d * 16 ^ rest.length + r)

/-- Go `strconv.ParseInt(s, 16, 64)`: an optional leading sign followed by
at least one hexadecimal digit.  The two-character inputs used by
`convertToOBIS` can never overflow `int64`, so the bit-size check is not
modelled. -/
def goParseIntHex (s : List Char) : Option Int :=
  match s with
  | [] => none
  | c :: rest =>
      if c = '+' then (parseHexDigits rest).map Int.ofNat
      else if c = '-' then (parseHexDigits rest).map (fun n => -(n : Int))
      else (parseHexDigits (c :: rest)).map Int.ofNat

/-- Decimal digits of a natural number, most significant first; fuel-based
so that it reduces inside the kernel.  `natDigits` below supplies
sufficient fuel. -/
def natDigitsFuel : Nat → Nat → List Char
  | 0, _ => []
  | f + 1, n =>
      if n < 10 then [Char.ofNat (48 + n)]
      else natDigitsFuel f (n / 10) ++ [Char.ofNat (48 + n % 10)]

/-- Canonical decimal rendering of a natural number (no sign, no leading
zeros), as produced by Go `fmt.Sprintf("%d", n)` for non-negative `n`. -/
def natDigits (n : Nat) : List Char :=
  natDigitsFuel (n + 1) n

/-- Canonical decimal rendering of an integer, as produced by Go
`fmt.Sprintf("%d", i)`. -/
def intDigits : Int → List Char
  | Int.ofNat n => natDigits n
  | Int.negSucc m => '-' :: natDigits (m + 1)

/-- Split a character list at every occurrence of `sep`; mirrors Go
`strings.Split` for a single-character separator (always returns at least
one, possibly empty, segment). -/
def splitOnChar (sep : Char) : List Char → List (List Char)
  | [] => [[]]
  | c :: rest =>
      if c = sep then [] :: splitOnChar sep rest
      else
        match splitOnChar sep rest with
        | [] => [[c]]
        | h :: t => (c :: h) :: t

/-- Hexadecimal digit predicate (either case), the validity notion behind
the spec phrase "valid hexadecimal". -/
def isHexDigitChar (c : Char) : Bool :=
  (hexDigitVal c).isSome

/-- A string free of sign characters; Go hex parsing accepts an optional
leading `+`/`-` sign, so sign-free inputs are exactly those on which
"parses in base 16" coincides with "consists of hex digits". -/
def signFree (s : String) : Bool :=
  s.toList.all (fun c => c != '+' && c != '-')

/-- Value of a list of decimal digits, most significant first. -/
def digitsToNat (l : List Char) : Nat :=
  l.foldl (fun a c => a * 10 + (c.toNat - 48)) 0

/-- One segment of a StandardCode: a non-empty run of decimal digits.
Modelled from the spec: "C, D, E are non-negative integers ... no empty
segment". -/
def isDigitSeg (l : List Char) : Bool :=
  !l.isEmpty && l.all isDigitChar

/-- Modelled from the spec (data model): a StandardCode is a string of the
form `C.D.E` — exactly two dots, three non-empty all-digit segments, hence
no leading or trailing dot. -/
def isStandardCode (s : String) : Bool :=
  match splitOnChar '.' s.toList with
  | [a, b, c] => isDigitSeg a && isDigitSeg b && isDigitSeg c
  | _ => false

/-- A canonical decimal numeral for a byte-sized value: non-empty, all
digits, no leading zero, and value at most 255. -/
def isCanonicalByteSeg (l : List Char) : Bool :=
  isDigitSeg l && (l.head? != some '0' || l.length = 1) && digitsToNat l ≤ 255

/-- Association-list lookup with string keys; models a Go map literal
lookup `m[k]` together with its `ok` flag. -/
def assocLookup (key : String) : List (String × String) → Option String
  | [] => none
  | (k, v) :: rest => if k = key then some v else assocLookup key rest

/-- Exact power of ten over `ℚ`; models `math.Pow(10, e)` for the integer
scale exponents appearing in the sources. -/
def pow10 : Int → ℚ
  | Int.ofNat n => (10 : ℚ) ^ n
  | Int.negSucc m => 1 / (10 : ℚ) ^ (m + 1)

/-- Exponent part of a Go floating-point literal: an optional sign followed
by at least one decimal digit, consuming the whole remaining input. -/
def parseExpPart (l : List Char) : Option Int :=
  match l with
  | '+' :: rest =>
      if rest ≠ [] ∧ rest.all isDigitChar then some (digitsToNat rest) else none
  | '-' :: rest =>
      if rest ≠ [] ∧ rest.all isDigitChar then some (-(digitsToNat rest : Int)) else none
  | rest =>
      if rest ≠ [] ∧ rest.all isDigitChar then some (digitsToNat rest) else none

/-- Unsigned mantissa with optional exponent: `digits [. digits] [e exp]`
with at least one digit in the mantissa. -/
def parseDecCore (l : List Char) : Option ℚ :=
  let ip := l.takeWhile isDigitChar
  let r1 := l.dropWhile isDigitChar
  let (fp, r2) :=
    match r1 with
    | '.' :: rest => (rest.takeWhile isDigitChar, rest.dropWhile isDigitChar)
    | _ => ([], r1)
  if ip = [] ∧ fp = [] then none
  else
    let mant : ℚ := (digitsToNat ip : ℚ) + (digitsToNat fp : ℚ) / (10 : ℚ) ^ fp.length
    match r2 with
    | [] => some mant
    | 'e' :: rest => (parseExpPart rest).map (fun z => mant * pow10 z)
    | 'E' :: rest => (parseExpPart rest).map (fun z => mant * pow10 z)
    | _ => none

/-- Go `strconv.ParseFloat(s, 64)` restricted to its decimal-numeral core
(an optional sign, digits with an optional fractional part and an optional
exponent); the `inf`/`nan`/hexadecimal-float forms never occur in meter
data and are not modelled.  The result is exact over `ℚ`. -/
def goParseFloat (s : String) : Option ℚ :=
  match s.toList with
  | [] => none
  | c :: rest =>
      if c = '+' then parseDecCore rest
      else if c = '-' then (parseDecCore rest).map Neg.neg
      else parseDecCore (c :: rest)

/-- Equality of `Except` results is decidable componentwise. -/
instance {ε α : Type} [DecidableEq ε] [DecidableEq α] :
    DecidableEq (Except ε α) := fun x y =>
  match x, y with
  | Except.ok a, Except.ok b =>
      if h : a = b then isTrue (by rw [h])
      else isFalse (fun hv => h (Except.ok.injEq a b ▸ hv))
  | Except.error a, Except.error b =>
      if h : a = b then isTrue (by rw [h])
      else isFalse (fun hv => h (Except.error.injEq a b ▸ hv))
  | Except.ok _, Except.error _ => isFalse (fun hv => Except.noConfusion hv)
  | Except.error _, Except.ok _ => isFalse (fun hv => Except.noConfusion hv)

/-!
## Vendor-agnostic data model (`smgwreader` package)

`Unit` and `Quality` are Go integer enums (`UnitWatt = 27`, `UnitWh = 30`,
`UnitAmpere = 33`, `UnitVolt = 35`, `UnitHertz = 44`; `QualityGood = 0`),
kept as `Int`/`Nat` values here.
-/

/-- One meter reading (`smgwreader.Reading`).  `value` models the `float64`
field exactly over `ℚ`; `timestamp` is the opaque capture instant. -/
structure Reading where
  value : ℚ
  unit : Int
  timestamp : Nat
  obis : String
  quality : Nat
  deriving DecidableEq, Repr

/-- Gateway metadata plus the readings mapping (`smgwreader.Information`).
The Go `map[string]Reading` is modelled as an association list with unique
keys maintained by `mapInsert` (insertion order irrelevant for lookups,
last write wins). -/
structure Information where
  name : String
  model : String
  manufacturer : String
  firmwareVersion : String
  lastUpdate : Nat
  readings : List (String × Reading)
  deriving DecidableEq, Repr

/-- `m[k] = v` on the association-list model of a Go map: overwrite the
existing binding for `k` if present, otherwise append a new one. -/
def mapInsert {α : Type} (m : List (String × α)) (k : String) (v : α) :
    List (String × α) :=
  if m.any (fun p => p.1 = k) then
    m.map (fun p => if p.1 = k then (k, v) else p)
  else m ++ [(k, v)]

namespace emhcasa

/-!
## EMH CASA client (`emhcasa` package)
-/

/-- The part of the logical name before the first dot, as produced by
`strings.SplitN(logicalName, ".", 2)[0]`. -/
def hexPortion (logicalName : String) : List Char :=
  logicalName.toList.takeWhile (fun c => c ≠ '.')

/-- The two-character slice `hex[i : i+2]` extracted by `convertToOBIS`. -/
def hexSeg (logicalName : String) (i : Nat) : List Char :=
  ((hexPortion logicalName).drop i).take 2

/-- `convertToOBIS` converts a CASA logical name to the OBIS `C.D.E`
format: the part before the first dot must have length 12; the hex-digit
pairs at offsets 4–5, 6–7 and 8–9 are parsed with
`strconv.ParseInt(_, 16, 64)` and rendered in decimal.  `none` models the
returned error. -/
def convertToOBIS (logicalName : String) : Option String :=
  if (hexPortion logicalName).length ≠ 12 then none
  else do
    let c ← SMGW.goParseIntHex (hexSeg logicalName 4)
    let d ← SMGW.goParseIntHex (hexSeg logicalName 6)
    let e ← SMGW.goParseIntHex (hexSeg logicalName 8)
    pure ⟨SMGW.intDigits c ++ '.' :: SMGW.intDigits d ++ '.' :: SMGW.intDigits e⟩

/-- `emhcasa.MeterValue`: one raw entry of the CASA JSON response. -/
structure MeterValue where
  value : String
  unit : Int
  scaler : Int
  logicalName : String
  deriving DecidableEq, Repr

/-- `emhcasa.MeterReading`: the decoded CASA JSON response. -/
structure MeterReading where
  values : List MeterValue
  deriving DecidableEq, Repr

/-- `emhcasa.DerivedContract`: one metering contract of the CASA gateway. -/
structure DerivedContract where
  tafType : String
  sensorDomains : List String
  deriving DecidableEq, Repr

/-- `Client.convertReading`: parse the raw value (the Go code discards the
`strconv.ParseFloat` error, so a non-numeric value yields `0`), scale by
`10^scaler`, then map the DLMS unit tag; tag `30` (watt-hours) is
additionally divided by 1000, an unrecognized tag leaves the Go zero
`Unit` value `0`.  `now` stands for `time.Now()`. -/
def convertReading (now : Nat) (item : MeterValue) (obis : String) : Reading :=
  let raw : ℚ := (goParseFloat item.value).getD 0
  let val : ℚ := raw * pow10 item.scaler
  let (val, unit) : ℚ × Int :=
    if item.unit = 27 then (val, 27)
    else if item.unit = 30 then (val / 1000, 30)
    else if item.unit = 33 then (val, 33)
    else if item.unit = 35 then (val, 35)
    else if item.unit = 44 then (val, 44)
    else (val, 0)
  { value := val, unit := unit, timestamp := now, obis := obis, quality := 0 }

/-- One iteration of the assembly loop of `Client.GetReadings`: convert
the logical name (skip the entry when conversion fails) and insert the
converted reading under its OBIS key. -/
def insertMeterValue (now : Nat) (acc : List (String × Reading))
    (item : MeterValue) : List (String × Reading) :=
  match convertToOBIS item.logicalName with
  | none => acc
  | some obis => mapInsert acc obis (convertReading now item obis)

/-- The assembly loop of `Client.GetReadings`. -/
def buildReadings (now : Nat) (values : List MeterValue) :
    List (String × Reading) :=
  values.foldl (insertMeterValue now) []

/-- Post-fetch core of `Client.GetReadings` (part after the raw CASA data
has been decoded into `reading`): build the `Information`, assemble the
readings, and fail when the assembled mapping is empty. -/
def GetReadings (now : Nat) (meterID : String) (reading : MeterReading) :
    Except String Information :=
  if (buildReadings now reading.values).length = 0 then
    Except.error "no valid meter values found"
  else
    Except.ok
      { name := meterID, model := "EMH CASA 1.1", manufacturer := "EMH",
        firmwareVersion := "", lastUpdate := now,
        readings := buildReadings now reading.values }

/-- Post-fetch core of `Client.discoverMeterIDContext`: the candidate list
is modelled by the per-contract fetch results, `none` standing for a
failed detail fetch (which the loop skips).  The first contract with a
non-empty `sensor_domains` list supplies the meter ID; otherwise the call
fails — there is no fallback to the first candidate. -/
def discoverMeterID : List (Option DerivedContract) → Except String String
  | [] => Except.error "no contract with sensor domains found"
  | none :: rest => discoverMeterID rest
  | some contract :: rest =>
      match contract.sensorDomains with
      | [] => discoverMeterID rest
      | d :: _ => Except.ok d

/-- The value/unit loop of the v1 `Client.GetMeterValues` (the deprecated
predecessor of `GetReadings`): unlike `convertReading`, a value that fails
`strconv.ParseFloat` is skipped, and only the five known unit tags insert
into the result map. -/
def legacyInsertValue (acc : List (String × ℚ)) (item : MeterValue) :
    List (String × ℚ) :=
  match convertToOBIS item.logicalName with
  | none => acc
  | some obis =>
      match goParseFloat item.value with
      | none => acc
      | some raw =>
          let val := raw * pow10 item.scaler
          if item.unit = (27 : Int) then mapInsert acc obis val
          else if item.unit = (30 : Int) then mapInsert acc obis (val / 1000)
          else if item.unit = (33 : Int) then mapInsert acc obis val
          else if item.unit = (35 : Int) then mapInsert acc obis val
          else if item.unit = (44 : Int) then mapInsert acc obis val
          else acc

/-- The value/unit loop of the v1 `Client.GetMeterValues`. -/
def legacyMeterValuesLoop (values : List MeterValue) : List (String × ℚ) :=
  values.foldl legacyInsertValue []

end emhcasa

namespace theben

/-!
## Theben Conexa client (`theben` package)
-/

/-- `theben.usagePoint`: one meter connection point of the `user-info`
response. -/
structure UsagePoint where
  id : String
  tafState : String
  tafNumber : String
  deriving DecidableEq, Repr

/-- `theben.reading`: one raw reading of the `readings` response. -/
structure RawReading where
  obis : String
  value : String
  captureTime : String
  deriving DecidableEq, Repr

/-- `theben.channel`: one meter channel of the `readings` response. -/
structure Channel where
  readings : List RawReading
  deriving DecidableEq, Repr

/-- The `smgw-info` payload (firmware version, manufacturer, model). -/
structure SMGWInfo where
  firmwareVersion : String
  manufacturer : String
  model : String
  deriving DecidableEq, Repr

/-- The preference test of the usage-point loop:
`up.TafState == "running" && up.TafNumber == "7"`. -/
def preferredUsagePoint (up : UsagePoint) : Bool :=
  up.tafState == "running" && up.tafNumber == "7"

/-- Post-fetch core of `Client.getUsagePointID`: prefer the first usage
point with `taf-state = "running"` and `taf-number = "7"`, fall back to
the first usage point, fail on an empty list. -/
def getUsagePointID (ups : List UsagePoint) : Except String String :=
  match ups.find? preferredUsagePoint with
  | some up => Except.ok up.id
  | none =>
      match ups with
      | [] => Except.error "no usage points found"
      | up :: _ => Except.ok up.id

/-- The fixed Theben device-code table of `Client.convertOBIS`. -/
def obisMappings : List (String × String) :=
  [("0100010800ff", "1-0:1.8.0"),
   ("0100020800ff", "1-0:2.8.0"),
   ("0100100700ff", "1-0:16.7.0"),
   ("01001f0700ff", "1-0:31.7.0"),
   ("0100200700ff", "1-0:32.7.0"),
   ("0100240700ff", "1-0:36.7.0"),
   ("0100330700ff", "1-0:51.7.0"),
   ("0100340700ff", "1-0:52.7.0"),
   ("0100380700ff", "1-0:56.7.0"),
   ("0100470700ff", "1-0:71.7.0"),
   ("0100480700ff", "1-0:72.7.0"),
   ("01004c0700ff", "1-0:76.7.0"),
   ("01000e0700ff", "1-0:14.7.0")]

/-- `Client.convertOBIS`: trim and lowercase the hex device code, then look
it up in the fixed table; unknown codes yield the empty string (the caller
skips such entries). -/
def convertOBIS (hexOBIS : String) : String :=
  let trimmed :=
    ((hexOBIS.toList.dropWhile Char.isWhitespace).reverse.dropWhile
      Char.isWhitespace).reverse
  let h : String := ⟨trimmed.map Char.toLower⟩
  (assocLookup h obisMappings).getD ""

/-- `a contains b` on character lists; models Go `strings.Contains`. -/
def containsSub (pat : List Char) : List Char → Bool
  | [] => decide (pat = [])
  | c :: rest => pat.isPrefixOf (c :: rest) || containsSub pat rest

/-- `Client.parseValue`: parse the numeric string, then divide energy
codes (those containing `".8."`) by 1000 (Wh → kWh) and every other code
by 10000 (deciwatt convention). -/
def parseValue (valueStr obis : String) : Except String ℚ :=
  match goParseFloat valueStr with
  | none => Except.error "parse error"
  | some value =>
      if containsSub ".8.".toList obis.toList then Except.ok (value / 1000)
      else Except.ok (value / 10000)

/-- `Client.determineUnit` (Theben flavour): split off the `1-0:` medium
prefix at `":"`, then infer the unit from the code segments; defaults to
Watt. -/
def determineUnit (obis : String) : Int :=
  match splitOnChar ':' obis.toList with
  | _ :: code :: _ =>
      (match splitOnChar '.' code with
       | p0 :: p1 :: _ =>
           if p1 = "8".toList then 30
           else if p1 = "7".toList then
             if p0 = "16".toList ∨ p0 = "36".toList ∨ p0 = "56".toList ∨ p0 = "76".toList then 27
             else if p0 = "31".toList ∨ p0 = "51".toList ∨ p0 = "71".toList then 33
             else if p0 = "32".toList ∨ p0 = "52".toList ∨ p0 = "72".toList then 35
             else if p0 = "14".toList then 44
             else 27
           else 27
       | _ => 27)
  | _ => 27

/-- One iteration of the assembly loop of `Client.getReadings`: convert
the device code (skip when unknown), parse the value (skip on parse
failure), and insert under the converted key.  `now` models `time.Now()`;
capture-time parsing only affects the timestamp field. -/
def insertRawReading (now : Nat) (acc : List (String × Reading))
    (r : RawReading) : List (String × Reading) :=
  if convertOBIS r.obis = "" then acc
  else
    match parseValue r.value (convertOBIS r.obis) with
    | Except.error _ => acc
    | Except.ok value =>
        mapInsert acc (convertOBIS r.obis)
          { value := value, unit := determineUnit (convertOBIS r.obis),
            timestamp := now, obis := convertOBIS r.obis, quality := 0 }

/-- The assembly loop of `Client.getReadings` over all channels. -/
def buildReadings (now : Nat) (channels : List Channel) :
    List (String × Reading) :=
  channels.foldl (fun acc ch => ch.readings.foldl (insertRawReading now) acc) []

/-- Post-fetch core of the Theben `Client.GetReadings` (after `smgw-info`,
usage-point resolution and the `readings` fetch all succeeded): builds the
`Information` and returns it unconditionally — there is no emptiness check
on the assembled mapping. -/
def GetReadings (now : Nat) (info : SMGWInfo) (meterID : String)
    (channels : List Channel) : Except String Information :=
  Except.ok
    { name := meterID, model := info.model, manufacturer := info.manufacturer,
      firmwareVersion := info.firmwareVersion, lastUpdate := now,
      readings := buildReadings now channels }

end theben

namespace ppc

/-!
## PPC client (`ppc` package)
-/

/-- One table row of the scraped `metervalue` HTML table, as delivered by
the (external) HTML traversal: the text of the OBIS, value and timestamp
cells, the empty string standing for a missing cell. -/
structure Row where
  obis : String
  value : String
  timestamp : String
  deriving DecidableEq, Repr

/-- `Client.determineUnit` (PPC flavour): split the code at the dots and
infer the unit from the first two segments; defaults to Watt. -/
def determineUnit (obis : String) : Int :=
  match splitOnChar '.' obis.toList with
  | p0 :: p1 :: _ =>
      if p1 = "8".toList then 30
      else if p1 = "7".toList then
        if p0 = "16".toList ∨ p0 = "36".toList ∨ p0 = "56".toList ∨ p0 = "76".toList then 27
        else if p0 = "31".toList ∨ p0 = "51".toList ∨ p0 = "71".toList then 33
        else if p0 = "32".toList ∨ p0 = "52".toList ∨ p0 = "72".toList then 35
        else if p0 = "14".toList then 44
        else 27
      else 27
  | _ => 27

/-- The row loop of `Client.extractTableRows`: rows with a non-empty OBIS
cell and a value cell that parses insert a reading under the scraped OBIS
key (used verbatim).  Timestamp-cell parsing only affects the timestamp
field and is represented by `now`. -/
def insertRow (now : Nat) (acc : List (String × Reading)) (r : Row) :
    List (String × Reading) :=
  if r.obis ≠ "" ∧ r.value ≠ "" then
    match goParseFloat r.value with
    | none => acc
    | some val =>
        mapInsert acc r.obis
          { value := val, unit := determineUnit r.obis,
            timestamp := now, obis := r.obis, quality := 0 }
  else acc

def extractRows (now : Nat) (rows : List Row) : List (String × Reading) :=
  rows.foldl (insertRow now) []

/-- Post-fetch core of `Client.getMeterProfile`: extract the readings from
the scraped rows and fail when none were found. -/
def getMeterProfile (now : Nat) (rows : List Row) :
    Except String (List (String × Reading)) :=
  if (extractRows now rows).length = 0 then Except.error "no readings found"
  else Except.ok (extractRows now rows)

/-- Post-fetch core of the PPC `Client.GetReadings` (meter ID already
resolved, profile fetch decoded into `rows`). -/
def GetReadings (now : Nat) (meterID : String) (rows : List Row) :
    Except String Information :=
  match getMeterProfile now rows with
  | Except.error e => Except.error e
  | Except.ok readings =>
      Except.ok
        { name := meterID, model := "PPC SMGW", manufacturer := "PPC",
          firmwareVersion := "", lastUpdate := now, readings := readings }

end ppc

namespace obis

/-!
## OBIS code registry (`obis` package)
-/

def EnergyImport : String := "1.8.0"
def EnergyExport : String := "2.8.0"
def PowerActive : String := "16.7.0"
def PowerL1 : String := "36.7.0"
def PowerL2 : String := "56.7.0"
def PowerL3 : String := "76.7.0"
def CurrentL1 : String := "31.7.0"
def CurrentL2 : String := "51.7.0"
def CurrentL3 : String := "71.7.0"
def VoltageL1 : String := "32.7.0"
def VoltageL2 : String := "52.7.0"
def VoltageL3 : String := "72.7.0"
def Frequency : String := "14.7.0"

/-- The map literal inside `obis.Description`. -/
def descriptions : List (String × String) :=
  [(EnergyImport, "Total imported energy (kWh)"),
   (EnergyExport, "Total exported energy (kWh)"),
   (PowerActive, "Current active power (W)"),
   (PowerL1, "Phase 1 active power (W)"),
   (PowerL2, "Phase 2 active power (W)"),
   (PowerL3, "Phase 3 active power (W)"),
   (CurrentL1, "Phase 1 current (A)"),
   (CurrentL2, "Phase 2 current (A)"),
   (CurrentL3, "Phase 3 current (A)"),
   (VoltageL1, "Phase 1 voltage (V)"),
   (VoltageL2, "Phase 2 voltage (V)"),
   (VoltageL3, "Phase 3 voltage (V)"),
   (Frequency, "Grid frequency (Hz)")]

/-- `obis.Description`: the registered description when the code is known,
otherwise the default string `"Unknown OBIS code: " + code`. -/
def Description (code : String) : String :=
  match assocLookup code descriptions with
  | some desc => desc
  | none => "Unknown OBIS code: " ++ code

end obis

/-- Modelled from the spec (4.5 Discovery Fallback Chain): scan candidates
in listing order; return the first candidate satisfying the preference
predicate; if none satisfies it, return the first candidate
unconditionally; fail on an empty candidate list. -/
def specSelectIdentity {α : Type} (pred : α → Bool) (ident : α → String)
    (candidates : List α) : Except String String :=
  match candidates.find? pred with
  | some c => Except.ok (ident c)
  | none =>
      match candidates with
      | [] => Except.error "no usable candidate"
      | c :: _ => Except.ok (ident c)

/-- Modelled from the spec (4.2, strategy (b)): split the code into
segments; second segment `"8"` means WattHour; second segment `"7"` infers
from the first segment by fixed set membership ({16,36,56,76} Watt,
{31,51,71} Ampere, {32,52,72} Volt, {14} Hertz); everything else defaults
to Watt. -/
def specDetermineUnit (code : String) : Int :=
  let parts := splitOnChar '.' code.toList
  match parts.get? 1 with
  | none => 27
  | some second =>
      if second = "8".toList then 30
      else if second = "7".toList then
        match parts.get? 0 with
        | none => 27
        | some first =>
            if first ∈ ["16".toList, "36".toList, "56".toList, "76".toList] then 27
            else if first ∈ ["31".toList, "51".toList, "71".toList] then 33
            else if first ∈ ["32".toList, "52".toList, "72".toList] then 35
            else if first ∈ ["14".toList] then 44
            else 27
      else 27

/-- A fetched discovery candidate that the EMH CASA loop passes over:
either the per-contract detail fetch failed, or the contract has no
sensor domains. -/
def contractSkipped : Option emhcasa.DerivedContract → Bool
  | none => true
  | some dc => dc.sensorDomains.isEmpty

/-- A medium-prefixed code `1-0:C.D.E`: the fixed prefix `1-0:` followed
by a StandardCode. -/
def isPrefixedStandard (s : String) : Bool :=
  "1-0:".toList.isPrefixOf s.toList && isStandardCode ⟨s.toList.drop 4⟩

end SMGW

/-!
## Helper lemmas
-/

namespace SMGW

theorem parseDecCore_digits (l : List Char) (h1 : l ≠ [])
    (h2 : l.all isDigitChar) : parseDecCore l = some (digitsToNat l : ℚ) := by
  have hall : ∀ c ∈ l, isDigitChar c := List.all_eq_true.mp h2
  have ht : l.takeWhile isDigitChar = l := List.takeWhile_eq_self_iff.mpr hall
  have hd : l.dropWhile isDigitChar = [] := List.dropWhile_eq_nil_iff.mpr hall
  unfold parseDecCore
  rw [ht, hd]
  simp only [List.length_nil]
  rw [if_neg (by simp [h1])]
  have hz : digitsToNat [] = 0 := rfl
  rw [hz]
  norm_num

theorem goParseFloat_digits (s : String) (h1 : s.toList ≠ [])
    (h2 : s.toList.all isDigitChar) :
    goParseFloat s = some (digitsToNat s.toList : ℚ) := by
  unfold goParseFloat
  rcases hs : s.toList with _ | ⟨c, rest⟩
  · exact absurd hs h1
  · rw [hs] at h2
    have hc : isDigitChar c := by
      have := List.all_eq_true.mp h2 c (by simp)
      exact this
    have hplus : c ≠ '+' := by
      intro h; rw [h] at hc; exact absurd hc (by decide)
    have hminus : c ≠ '-' := by
      intro h; rw [h] at hc; exact absurd hc (by decide)
    show (if c = '+' then parseDecCore rest
        else if c = '-' then Option.map Neg.neg (parseDecCore rest)
        else parseDecCore (c :: rest)) = some ((digitsToNat (c :: rest) : ℚ))
    rw [if_neg hplus, if_neg hminus]
    exact parseDecCore_digits (c :: rest) (by simp) h2

theorem pow10_zero : pow10 0 = 1 := by
  show (10 : ℚ) ^ (0 : Nat) = 1
  norm_num

theorem pow10_two : pow10 2 = 100 := by
  show (10 : ℚ) ^ (2 : Nat) = 100
  norm_num

theorem pow10_neg_one : pow10 (-1) = 1 / 10 := by
  show 1 / (10 : ℚ) ^ (0 + 1 : Nat) = 1 / 10
  norm_num

/-- The two-stage normalization of `convertReading` in closed form: scale
by `10^scaler`, then divide by 1000 exactly for unit tag 30. -/
theorem convertReading_value (now : Nat) (item : emhcasa.MeterValue)
    (obis : String) :
    (emhcasa.convertReading now item obis).value =
      (if item.unit = (30 : Int)
       then ((goParseFloat item.value).getD 0) * pow10 item.scaler / 1000
       else ((goParseFloat item.value).getD 0) * pow10 item.scaler) := by
  unfold emhcasa.convertReading
  split_ifs with h1 h2 h3 h4 h5 <;> simp_all

theorem hexDigitVal_lt (c : Char) (d : Nat) (h : hexDigitVal c = some d) :
    d < 16 := by
  unfold hexDigitVal at h
  split_ifs at h with h1 h2 h3
  · obtain ⟨a, b⟩ := h1
    have a1 : (48 : Nat) ≤ c.toNat := a
    have a2 : c.toNat ≤ 57 := b
    injection h with h
    omega
  · obtain ⟨a, b⟩ := h2
    have a1 : (97 : Nat) ≤ c.toNat := a
    have a2 : c.toNat ≤ 102 := b
    injection h with h
    omega
  · obtain ⟨a, b⟩ := h3
    have a1 : (65 : Nat) ≤ c.toNat := a
    have a2 : c.toNat ≤ 70 := b
    injection h with h
    omega

theorem parseHexDigits_bound :
    ∀ (l : List Char) (n : Nat), parseHexDigits l = some n → n < 16 ^ l.length := by
  intro l
  induction l with
  | nil => intro n h; cases h
  | cons c rest ih =>
    intro n h
    cases rest with
    | nil =>
      have hb := hexDigitVal_lt c n h
      simpa using hb
    | cons c2 r2 =>
      have hunf : parseHexDigits (c :: c2 :: r2) = (do
          let d ← hexDigitVal c
          let r ← parseHexDigits (c2 :: r2)
          pure (d * 16 ^ (c2 :: r2).length + r)) := rfl
      rcases hd : hexDigitVal c with _ | d
      · rw [hunf, hd] at h; cases h
      · rcases hr : parseHexDigits (c2 :: r2) with _ | r
        · rw [hunf, hd, hr] at h; cases h
        · rw [hunf, hd, hr] at h
          injection h with h
          have hdlt := hexDigitVal_lt c d hd
          have hrlt := ih r hr
          subst h
          have hstep : d * 16 ^ (c2 :: r2).length + r < (d + 1) * 16 ^ (c2 :: r2).length := by
            have := hrlt
            nlinarith [this]
          calc d * 16 ^ (c2 :: r2).length + r
              < (d + 1) * 16 ^ (c2 :: r2).length := hstep
            _ ≤ 16 * 16 ^ (c2 :: r2).length :=
                Nat.mul_le_mul_right _ (by omega)
            _ = 16 ^ ((c2 :: r2).length + 1) := by
                rw [pow_succ]
                ring
            _ = 16 ^ (c :: c2 :: r2).length := rfl

theorem parseHexDigits_isSome :
    ∀ (l : List Char), (parseHexDigits l).isSome =
      (!l.isEmpty && l.all isHexDigitChar) := by
  intro l
  induction l with
  | nil => rfl
  | cons c rest ih =>
    cases rest with
    | nil =>
      show (hexDigitVal c).isSome = _
      simp [isHexDigitChar]
    | cons c2 r2 =>
      have hunf : parseHexDigits (c :: c2 :: r2) = (do
          let d ← hexDigitVal c
          let r ← parseHexDigits (c2 :: r2)
          pure (d * 16 ^ (c2 :: r2).length + r)) := rfl
      rw [hunf]
      rcases hd : hexDigitVal c with _ | d
      · have hc : isHexDigitChar c = false := by simp [isHexDigitChar, hd]
        simp [hc]
      · have hc : isHexDigitChar c = true := by simp [isHexDigitChar, hd]
        rcases hr : parseHexDigits (c2 :: r2) with _ | r
        · rw [hr] at ih
          have hall : (c2 :: r2).all isHexDigitChar = false := by
            simpa using ih.symm
          simp [hc, hall]
        · rw [hr] at ih
          have hall : (c2 :: r2).all isHexDigitChar = true := by
            simpa using ih.symm
          simp [hc, hall]

theorem goParseIntHex_signFree (l : List Char)
    (hsf : ∀ c ∈ l, c ≠ '+' ∧ c ≠ '-') :
    goParseIntHex l = (parseHexDigits l).map Int.ofNat := by
  cases l with
  | nil => rfl
  | cons c rest =>
    obtain ⟨hplus, hminus⟩ := hsf c (by simp)
    show (if c = '+' then (parseHexDigits rest).map Int.ofNat
        else if c = '-' then (parseHexDigits rest).map (fun n => -(n : Int))
        else (parseHexDigits (c :: rest)).map Int.ofNat) = _
    rw [if_neg hplus, if_neg hminus]

theorem digitChar_spec (m : Nat) (h : m < 10) :
    isDigitChar (Char.ofNat (48 + m)) = true ∧
      (Char.ofNat (48 + m)).toNat = 48 + m := by
  interval_cases m <;> exact ⟨by decide, by decide⟩

theorem digitsToNat_foldl (l : List Char) :
    ∀ init : Nat,
      l.foldl (fun a c => a * 10 + (c.toNat - 48)) init =
        init * 10 ^ l.length + digitsToNat l := by
  induction l with
  | nil => intro init; simp [digitsToNat]
  | cons c rest ih =>
    intro init
    show rest.foldl (fun a c => a * 10 + (c.toNat - 48))
        (init * 10 + (c.toNat - 48)) = _
    rw [ih]
    have h2 : digitsToNat (c :: rest) =
        (c.toNat - 48) * 10 ^ rest.length + digitsToNat rest := by
      show rest.foldl (fun a c => a * 10 + (c.toNat - 48))
          (0 * 10 + (c.toNat - 48)) = _
      rw [ih]
      ring_nf
    rw [h2, List.length_cons, pow_succ]
    ring

theorem digitsToNat_append (a b : List Char) :
    digitsToNat (a ++ b) = digitsToNat a * 10 ^ b.length + digitsToNat b := by
  show (a ++ b).foldl (fun a c => a * 10 + (c.toNat - 48)) 0 = _
  rw [List.foldl_append]
  exact digitsToNat_foldl b _

theorem natDigitsFuel_spec :
    ∀ (f n : Nat), n < f →
      natDigitsFuel f n ≠ [] ∧
      (natDigitsFuel f n).all isDigitChar = true ∧
      digitsToNat (natDigitsFuel f n) = n ∧
      ((natDigitsFuel f n).head? = some '0' → n = 0) := by
  intro f
  induction f with
  | zero => intro n h; exact absurd h (Nat.not_lt_zero n)
  | succ f ih =>
    intro n h
    by_cases h10 : n < 10
    · have hunf : natDigitsFuel (f + 1) n = [Char.ofNat (48 + n)] := by
        show (if n < 10 then [Char.ofNat (48 + n)]
            else natDigitsFuel f (n / 10) ++ [Char.ofNat (48 + n % 10)]) = _
        rw [if_pos h10]
      obtain ⟨hdig, htn⟩ := digitChar_spec n h10
      refine ⟨by simp [hunf], by simp [hunf, hdig], ?_, ?_⟩
      · rw [hunf]
        show 0 * 10 + ((Char.ofNat (48 + n)).toNat - 48) = n
        rw [htn]
        omega
      · rw [hunf]
        intro hh
        simp only [List.head?_cons, Option.some.injEq] at hh
        have := congrArg Char.toNat hh
        rw [htn] at this
        have h0 : ('0').toNat = 48 := rfl
        rw [h0] at this
        omega
    · have hunf : natDigitsFuel (f + 1) n =
          natDigitsFuel f (n / 10) ++ [Char.ofNat (48 + n % 10)] := by
        show (if n < 10 then [Char.ofNat (48 + n)]
            else natDigitsFuel f (n / 10) ++ [Char.ofNat (48 + n % 10)]) = _
        rw [if_neg h10]
      have hrec : n / 10 < f := by omega
      obtain ⟨ih1, ih2, ih3, ih4⟩ := ih (n / 10) hrec
      obtain ⟨hdig, htn⟩ := digitChar_spec (n % 10) (Nat.mod_lt n (by norm_num))
      refine ⟨by simp [hunf], ?_, ?_, ?_⟩
      · rw [hunf]
        simp [List.all_append, ih2, hdig]
      · rw [hunf, digitsToNat_append, ih3]
        have hone : digitsToNat [Char.ofNat (48 + n % 10)] = n % 10 := by
          show 0 * 10 + ((Char.ofNat (48 + n % 10)).toNat - 48) = n % 10
          rw [htn]
          omega
        rw [hone]
        simp
        omega
      · rw [hunf]
        intro hh
        rcases hl : natDigitsFuel f (n / 10) with _ | ⟨c0, rest0⟩
        · exact absurd hl ih1
        · rw [hl] at hh
          simp only [List.cons_append, List.head?_cons] at hh
          have hz := ih4 (by rw [hl]; simpa using hh)
          omega

theorem natDigits_spec (n : Nat) :
    natDigits n ≠ [] ∧
    (natDigits n).all isDigitChar = true ∧
    digitsToNat (natDigits n) = n ∧
    ((natDigits n).head? = some '0' → n = 0) :=
  natDigitsFuel_spec (n + 1) n (Nat.lt_succ_self n)

theorem natDigits_canonical (n : Nat) (h : n ≤ 255) :
    isCanonicalByteSeg (natDigits n) = true := by
  obtain ⟨h1, h2, h3, h4⟩ := natDigits_spec n
  unfold isCanonicalByteSeg isDigitSeg
  have he : (natDigits n).isEmpty = false := by
    cases hl : natDigits n with
    | nil => exact absurd hl h1
    | cons a b => rfl
  by_cases hz : (natDigits n).head? = some '0'
  · have hn0 : n = 0 := h4 hz
    subst hn0
    decide
  · simp [he, h2, hz, h3, h]

theorem not_dot_of_digitSeg (l : List Char) (h : isDigitSeg l = true) :
    '.' ∉ l := by
  intro hmem
  have hall : l.all isDigitChar = true := (Bool.and_eq_true _ _ |>.mp h).2
  have := List.all_eq_true.mp hall _ hmem
  exact absurd this (by decide)

theorem digitSeg_of_canonical (l : List Char) (h : isCanonicalByteSeg l = true) :
    isDigitSeg l = true := by
  unfold isCanonicalByteSeg at h
  exact ((Bool.and_eq_true _ _ |>.mp (Bool.and_eq_true _ _ |>.mp h).1).1)

theorem splitOnChar_not_mem (sep : Char) :
    ∀ l : List Char, sep ∉ l → splitOnChar sep l = [l] := by
  intro l
  induction l with
  | nil => intro _; rfl
  | cons c rest ih =>
    intro h
    have hc : c ≠ sep := fun he => h (he ▸ List.mem_cons_self c rest)
    have hr : sep ∉ rest := fun hm => h (List.mem_cons_of_mem c hm)
    show (if c = sep then [] :: splitOnChar sep rest
        else match splitOnChar sep rest with
          | [] => [[c]]
          | h :: t => (c :: h) :: t) = [c :: rest]
    rw [if_neg hc, ih hr]

theorem splitOnChar_append (sep : Char) :
    ∀ (a rest : List Char), sep ∉ a →
      splitOnChar sep (a ++ sep :: rest) = a :: splitOnChar sep rest := by
  intro a
  induction a with
  | nil =>
    intro rest _
    show (if sep = sep then [] :: splitOnChar sep rest
        else match splitOnChar sep rest with
          | [] => [[sep]]
          | h :: t => (sep :: h) :: t) = [] :: splitOnChar sep rest
    rw [if_pos rfl]
  | cons c a0 ih =>
    intro rest h
    have hc : c ≠ sep := fun he => h (he ▸ List.mem_cons_self c a0)
    have ha : sep ∉ a0 := fun hm => h (List.mem_cons_of_mem c hm)
    show (if c = sep then [] :: splitOnChar sep (a0 ++ sep :: rest)
        else match splitOnChar sep (a0 ++ sep :: rest) with
          | [] => [[c]]
          | h :: t => (c :: h) :: t) = (c :: a0) :: splitOnChar sep rest
    rw [if_neg hc, ih rest ha]

theorem splitOnChar_three (a b c : List Char)
    (ha : '.' ∉ a) (hb : '.' ∉ b) (hc : '.' ∉ c) :
    splitOnChar '.' (a ++ '.' :: (b ++ '.' :: c)) = [a, b, c] := by
  rw [splitOnChar_append '.' a _ ha, splitOnChar_append '.' b _ hb,
    splitOnChar_not_mem '.' c hc]

theorem isStandardCode_of_segments (a b c : List Char)
    (ha : isDigitSeg a = true) (hb : isDigitSeg b = true)
    (hc : isDigitSeg c = true) :
    isStandardCode ⟨a ++ '.' :: (b ++ '.' :: c)⟩ = true := by
  unfold isStandardCode
  have hl : String.toList ⟨a ++ '.' :: (b ++ '.' :: c)⟩ =
      a ++ '.' :: (b ++ '.' :: c) := rfl
  rw [hl, splitOnChar_three a b c (not_dot_of_digitSeg a ha)
    (not_dot_of_digitSeg b hb) (not_dot_of_digitSeg c hc)]
  simp [ha, hb, hc]

/-- On sign-free inputs, a successful `convertToOBIS` output consists of
three decimal renderings of byte values joined by dots. -/
theorem convertToOBIS_signFree (s out : String) (hs : signFree s = true)
    (h : emhcasa.convertToOBIS s = some out) :
    ∃ x y z : Nat, x ≤ 255 ∧ y ≤ 255 ∧ z ≤ 255 ∧
      out.toList = natDigits x ++ '.' :: (natDigits y ++ '.' :: natDigits z) := by
  have hsub : ∀ i : Nat, ∀ c ∈ emhcasa.hexSeg s i, c ≠ '+' ∧ c ≠ '-' := by
    intro i c hmem
    have h1 : c ∈ emhcasa.hexPortion s :=
      List.drop_subset _ _ (List.take_subset _ _ hmem)
    have h2 : c ∈ s.toList := (List.takeWhile_prefix _).subset h1
    have h3 := List.all_eq_true.mp hs c h2
    simp only [Bool.and_eq_true, bne_iff_ne] at h3
    exact h3
  unfold emhcasa.convertToOBIS at h
  rcases eq_or_ne (emhcasa.hexPortion s).length 12 with hlen | hlen
  · rw [if_neg (by simp [hlen])] at h
    have hseg : ∀ i : Nat, i ≤ 8 → (emhcasa.hexSeg s i).length = 2 := by
      intro i hi
      simp only [emhcasa.hexSeg, List.length_take, List.length_drop, hlen]
      omega
    rw [goParseIntHex_signFree _ (hsub 4), goParseIntHex_signFree _ (hsub 6),
      goParseIntHex_signFree _ (hsub 8)] at h
    rcases h4 : parseHexDigits (emhcasa.hexSeg s 4) with _ | x
    · rw [h4] at h; simp at h
    · rcases h6 : parseHexDigits (emhcasa.hexSeg s 6) with _ | y
      · rw [h4, h6] at h; simp at h
      · rcases h8 : parseHexDigits (emhcasa.hexSeg s 8) with _ | z
        · rw [h4, h6, h8] at h; simp at h
        · rw [h4, h6, h8] at h
          have h' : (⟨intDigits (Int.ofNat x) ++ '.' :: intDigits (Int.ofNat y)
              ++ '.' :: intDigits (Int.ofNat z)⟩ : String) = out := by
            simpa using h
          have b4 := parseHexDigits_bound _ x h4
          have b6 := parseHexDigits_bound _ y h6
          have b8 := parseHexDigits_bound _ z h8
          rw [hseg 4 (by omega)] at b4
          rw [hseg 6 (by omega)] at b6
          rw [hseg 8 (by omega)] at b8
          norm_num at b4 b6 b8
          refine ⟨x, y, z, by omega, by omega, by omega, ?_⟩
          rw [← h']
          simp [intDigits, String.toList]
  · rw [if_pos hlen] at h
    cases h

theorem natDigits_digitSeg (n : Nat) : isDigitSeg (natDigits n) = true := by
  obtain ⟨h1, h2, _, _⟩ := natDigits_spec n
  unfold isDigitSeg
  cases hl : natDigits n with
  | nil => exact absurd hl h1
  | cons a l =>
    rw [hl] at h2
    simp [h2]

theorem isStandardCode_toList (s : String) (a b c : List Char)
    (h : s.toList = a ++ '.' :: (b ++ '.' :: c))
    (ha : isDigitSeg a = true) (hb : isDigitSeg b = true)
    (hc : isDigitSeg c = true) :
    isStandardCode s = true := by
  unfold isStandardCode
  rw [h, splitOnChar_three a b c (not_dot_of_digitSeg a ha)
    (not_dot_of_digitSeg b hb) (not_dot_of_digitSeg c hc)]
  simp [ha, hb, hc]

/-- On sign-free inputs every successful conversion is a StandardCode. -/
theorem convertToOBIS_standard (s out : String) (hs : signFree s = true)
    (h : emhcasa.convertToOBIS s = some out) : isStandardCode out = true := by
  obtain ⟨x, y, z, _, _, _, hshape⟩ := convertToOBIS_signFree s out hs h
  exact isStandardCode_toList out _ _ _ hshape (natDigits_digitSeg x)
    (natDigits_digitSeg y) (natDigits_digitSeg z)

theorem mapInsert_keys {α : Type} (m : List (String × α)) (key k : String)
    (v : α) (h : k ∈ (mapInsert m key v).map Prod.fst) :
    k ∈ m.map Prod.fst ∨ k = key := by
  unfold mapInsert at h
  split_ifs at h with hmem
  · rw [List.map_map] at h
    rcases List.mem_map.mp h with ⟨p, hp, hk⟩
    by_cases hpk : p.1 = key
    · right
      simp only [Function.comp, hpk, if_pos] at hk
      exact hk.symm ▸ rfl
    · left
      simp only [Function.comp, hpk, if_neg, ite_false] at hk
      exact List.mem_map.mpr ⟨p, hp, hk⟩
  · rw [List.map_append] at h
    rcases List.mem_append.mp h with h1 | h1
    · exact Or.inl h1
    · right
      simpa using h1

/-- Keys of a fold of key-inserting steps come either from the initial
accumulator or from one of the folded elements. -/
theorem foldl_key_source {α β : Type}
    (step : List (String × β) → α → List (String × β))
    (P : α → String → Prop)
    (hstep : ∀ acc a k, k ∈ (step acc a).map Prod.fst →
      k ∈ acc.map Prod.fst ∨ P a k) :
    ∀ (l : List α) (acc : List (String × β)) (k : String),
      k ∈ (l.foldl step acc).map Prod.fst →
      k ∈ acc.map Prod.fst ∨ ∃ a ∈ l, P a k := by
  intro l
  induction l with
  | nil => intro acc k h; exact Or.inl h
  | cons a l ih =>
    intro acc k h
    rcases ih (step acc a) k h with h1 | ⟨b, hb, hP⟩
    · rcases hstep acc a k h1 with h2 | h2
      · exact Or.inl h2
      · exact Or.inr ⟨a, by simp, h2⟩
    · exact Or.inr ⟨b, by simp [hb], hP⟩

theorem insertMeterValue_keys (now : Nat) (acc : List (String × Reading))
    (item : emhcasa.MeterValue) (k : String)
    (h : k ∈ (emhcasa.insertMeterValue now acc item).map Prod.fst) :
    k ∈ acc.map Prod.fst ∨ emhcasa.convertToOBIS item.logicalName = some k := by
  unfold emhcasa.insertMeterValue at h
  rcases hc : emhcasa.convertToOBIS item.logicalName with _ | obis
  · rw [hc] at h
    exact Or.inl h
  · rw [hc] at h
    rcases mapInsert_keys _ _ _ _ h with h1 | h1
    · exact Or.inl h1
    · exact Or.inr (by rw [h1])

theorem insertRawReading_keys (now : Nat) (acc : List (String × Reading))
    (r : theben.RawReading) (k : String)
    (h : k ∈ (theben.insertRawReading now acc r).map Prod.fst) :
    k ∈ acc.map Prod.fst ∨ (theben.convertOBIS r.obis = k ∧ k ≠ "") := by
  unfold theben.insertRawReading at h
  split_ifs at h with hz
  · exact Or.inl h
  · rcases hp : theben.parseValue r.value (theben.convertOBIS r.obis) with e | v
    · rw [hp] at h
      exact Or.inl h
    · rw [hp] at h
      rcases mapInsert_keys _ _ _ _ h with h1 | h1
      · exact Or.inl h1
      · subst h1
        exact Or.inr ⟨rfl, hz⟩

theorem insertRow_keys (now : Nat) (acc : List (String × Reading))
    (r : ppc.Row) (k : String)
    (h : k ∈ (ppc.insertRow now acc r).map Prod.fst) :
    k ∈ acc.map Prod.fst ∨ r.obis = k := by
  unfold ppc.insertRow at h
  split_ifs at h with hcond
  · rcases hg : goParseFloat r.value with _ | v
    · rw [hg] at h
      exact Or.inl h
    · rw [hg] at h
      rcases mapInsert_keys _ _ _ _ h with h1 | h1
      · exact Or.inl h1
      · exact Or.inr h1.symm
  · exact Or.inl h

/-- Every key of the EMH CASA readings map is the successful conversion of
some raw entry of the fetched list. -/
theorem emh_buildReadings_keys (now : Nat) (vs : List emhcasa.MeterValue)
    (k : String) (h : k ∈ (emhcasa.buildReadings now vs).map Prod.fst) :
    ∃ item ∈ vs, emhcasa.convertToOBIS item.logicalName = some k := by
  rcases foldl_key_source (emhcasa.insertMeterValue now)
      (fun item k => emhcasa.convertToOBIS item.logicalName = some k)
      (insertMeterValue_keys now) vs [] k h with h1 | h1
  · simp at h1
  · exact h1

/-- Every key of the Theben readings map is a non-empty table-conversion
output. -/
theorem theben_buildReadings_keys (now : Nat) (chs : List theben.Channel)
    (k : String) (h : k ∈ (theben.buildReadings now chs).map Prod.fst) :
    ∃ r : theben.RawReading, theben.convertOBIS r.obis = k ∧ k ≠ "" := by
  have hstep : ∀ (acc : List (String × Reading)) (ch : theben.Channel)
      (k : String),
      k ∈ (ch.readings.foldl (theben.insertRawReading now) acc).map Prod.fst →
      k ∈ acc.map Prod.fst ∨
        ∃ r ∈ ch.readings, theben.convertOBIS r.obis = k ∧ k ≠ "" := by
    intro acc ch k hk
    exact foldl_key_source (theben.insertRawReading now)
      (fun r k => theben.convertOBIS r.obis = k ∧ k ≠ "")
      (insertRawReading_keys now) ch.readings acc k hk
  rcases foldl_key_source _
      (fun ch k => ∃ r ∈ ch.readings, theben.convertOBIS r.obis = k ∧ k ≠ "")
      hstep chs [] k h with h1 | ⟨ch, _, r, _, hr⟩
  · simp at h1
  · exact ⟨r, hr⟩

/-- Every key of the PPC readings map is a scraped OBIS cell, verbatim. -/
theorem ppc_extractRows_keys (now : Nat) (rows : List ppc.Row) (k : String)
    (h : k ∈ (ppc.extractRows now rows).map Prod.fst) :
    ∃ r ∈ rows, r.obis = k := by
  rcases foldl_key_source (ppc.insertRow now) (fun r k => r.obis = k)
      (insertRow_keys now) rows [] k h with h1 | h1
  · simp at h1
  · exact h1

theorem emh_GetReadings_ok (now : Nat) (meterID : String)
    (mr : emhcasa.MeterReading) (info : Information)
    (h : emhcasa.GetReadings now meterID mr = Except.ok info) :
    info.readings = emhcasa.buildReadings now mr.values ∧
      info.readings ≠ [] := by
  unfold emhcasa.GetReadings at h
  split_ifs at h with hlen
  injection h with h
  subst h
  refine ⟨rfl, ?_⟩
  intro hnil
  have hb : emhcasa.buildReadings now mr.values = [] := hnil
  rw [hb] at hlen
  exact hlen rfl

theorem ppc_getMeterProfile_ok (now : Nat) (rows : List ppc.Row)
    (readings : List (String × Reading))
    (h : ppc.getMeterProfile now rows = Except.ok readings) :
    readings = ppc.extractRows now rows ∧ readings ≠ [] := by
  unfold ppc.getMeterProfile at h
  split_ifs at h with hlen
  injection h with h
  subst h
  exact ⟨rfl, fun hnil => hlen (by rw [hnil]; rfl)⟩

theorem assocLookup_getD (key : String) (t : List (String × String)) :
    (assocLookup key t).getD "" = "" ∨
      (assocLookup key t).getD "" ∈ t.map Prod.snd := by
  induction t with
  | nil => exact Or.inl rfl
  | cons p rest ih =>
    unfold assocLookup
    by_cases hk : p.1 = key
    · rw [if_pos hk]
      right
      simp
    · rw [if_neg hk]
      rcases ih with h | h
      · exact Or.inl h
      · right
        simp only [List.map_cons, List.mem_cons]
        exact Or.inr h

theorem assocLookup_eq_none (key : String) :
    ∀ t : List (String × String), key ∉ t.map Prod.fst →
      assocLookup key t = none := by
  intro t
  induction t with
  | nil => intro _; rfl
  | cons p rest ih =>
    intro h
    have h1 : p.1 ≠ key := by
      intro he
      exact h (by simp [he])
    have h2 : key ∉ rest.map Prod.fst := by
      intro hm
      exact h (by simp [hm])
    unfold assocLookup
    rw [if_neg h1]
    exact ih h2

theorem theben_convertOBIS_cases (s : String) :
    theben.convertOBIS s = "" ∨
      theben.convertOBIS s ∈ theben.obisMappings.map Prod.snd := by
  unfold theben.convertOBIS
  exact assocLookup_getD _ _

theorem goParseFloat_natLit (s : String) (n : Nat) (h1 : s.toList ≠ [])
    (h2 : s.toList.all isDigitChar = true) (h3 : digitsToNat s.toList = n) :
    goParseFloat s = some (n : ℚ) := by
  rw [goParseFloat_digits s h1 h2, h3]

/-- The Theben usage-point selection returns the first candidate
satisfying the preference predicate. -/
theorem theben_select_preferred (pre post : List theben.UsagePoint)
    (up : theben.UsagePoint)
    (hpre : ∀ u ∈ pre, theben.preferredUsagePoint u = false)
    (hup : theben.preferredUsagePoint up = true) :
    theben.getUsagePointID (pre ++ up :: post) = Except.ok up.id := by
  unfold theben.getUsagePointID
  rw [List.find?_append]
  rw [List.find?_eq_none.mpr (by intro x hx; simp [hpre x hx])]
  rw [List.find?_cons_of_pos _ hup]
  rfl

/-- When no candidate is preferred, the Theben selection falls back to the
first candidate of a non-empty list. -/
theorem theben_select_fallback (u : theben.UsagePoint)
    (rest : List theben.UsagePoint)
    (hall : ∀ x ∈ u :: rest, theben.preferredUsagePoint x = false) :
    theben.getUsagePointID (u :: rest) = Except.ok u.id := by
  unfold theben.getUsagePointID
  rw [List.find?_eq_none.mpr (by intro x hx; simp [hall x hx])]

/-- The Theben selection fails on an empty candidate list. -/
theorem theben_select_empty :
    theben.getUsagePointID [] = Except.error "no usage points found" := rfl

/-- The EMH CASA discovery returns the first sensor domain of the first
contract carrying one. -/
theorem emh_discover_first (pre post : List (Option emhcasa.DerivedContract))
    (dc : emhcasa.DerivedContract) (d : String) (ds : List String)
    (hpre : ∀ x ∈ pre, contractSkipped x = true)
    (hdc : dc.sensorDomains = d :: ds) :
    emhcasa.discoverMeterID (pre ++ some dc :: post) = Except.ok d := by
  induction pre with
  | nil =>
    show emhcasa.discoverMeterID (some dc :: post) = Except.ok d
    unfold emhcasa.discoverMeterID
    rw [hdc]
  | cons x pre ih =>
    have hskip := hpre x (by simp)
    have hrest : ∀ y ∈ pre, contractSkipped y = true :=
      fun y hy => hpre y (by simp [hy])
    cases x with
    | none =>
      show emhcasa.discoverMeterID (pre ++ some dc :: post) = Except.ok d
      exact ih hrest
    | some c =>
      cases hc : c.sensorDomains with
      | cons e es =>
        rw [show contractSkipped (some c) = c.sensorDomains.isEmpty from rfl,
          hc] at hskip
        cases hskip
      | nil =>
        show (match c.sensorDomains with
            | [] => emhcasa.discoverMeterID (pre ++ some dc :: post)
            | d :: _ => Except.ok d) = Except.ok d
        rw [hc]
        exact ih hrest

/-- When every fetched contract is skipped (fetch failure or no sensor
domains), the EMH CASA discovery fails — it has no fallback to the first
candidate. -/
theorem emh_discover_none (cs : List (Option emhcasa.DerivedContract))
    (hall : ∀ x ∈ cs, contractSkipped x = true) :
    emhcasa.discoverMeterID cs =
      Except.error "no contract with sensor domains found" := by
  induction cs with
  | nil => rfl
  | cons x cs ih =>
    have hskip := hall x (by simp)
    have hrest : ∀ y ∈ cs, contractSkipped y = true :=
      fun y hy => hall y (by simp [hy])
    cases x with
    | none => exact ih hrest
    | some c =>
      cases hc : c.sensorDomains with
      | cons e es =>
        rw [show contractSkipped (some c) = c.sensorDomains.isEmpty from rfl,
          hc] at hskip
        cases hskip
      | nil =>
        show (match c.sensorDomains with
            | [] => emhcasa.discoverMeterID cs
            | d :: _ => Except.ok d) = _
        rw [hc]
        exact ih hrest

theorem ppc_GetReadings_ok (now : Nat) (meterID : String)
    (rows : List ppc.Row) (info : Information)
    (h : ppc.GetReadings now meterID rows = Except.ok info) :
    info.readings ≠ [] := by
  unfold ppc.GetReadings at h
  rcases hp : ppc.getMeterProfile now rows with e | readings
  · rw [hp] at h
    cases h
  · rw [hp] at h
    injection h with h
    subst h
    exact (ppc_getMeterProfile_ok now rows readings hp).2

/-- On sign-free inputs `convertToOBIS` succeeds exactly when the hex
portion has length 12 and the three extracted segments consist of hex
digits. -/
theorem convertToOBIS_isSome_iff (s : String) (hs : signFree s = true) :
    (emhcasa.convertToOBIS s).isSome = true ↔
      ((emhcasa.hexPortion s).length = 12 ∧
       (emhcasa.hexSeg s 4).all isHexDigitChar = true ∧
       (emhcasa.hexSeg s 6).all isHexDigitChar = true ∧
       (emhcasa.hexSeg s 8).all isHexDigitChar = true) := by
  have hsub : ∀ i : Nat, ∀ c ∈ emhcasa.hexSeg s i, c ≠ '+' ∧ c ≠ '-' := by
    intro i c hmem
    have h1 : c ∈ emhcasa.hexPortion s :=
      List.drop_subset _ _ (List.take_subset _ _ hmem)
    have h2 : c ∈ s.toList := (List.takeWhile_prefix _).subset h1
    have h3 := List.all_eq_true.mp hs c h2
    simp only [Bool.and_eq_true, bne_iff_ne] at h3
    exact h3
  rcases eq_or_ne (emhcasa.hexPortion s).length 12 with hlen | hlen
  · have hne : ∀ i : Nat, i ≤ 8 → (emhcasa.hexSeg s i).isEmpty = false := by
      intro i hi
      cases hl : emhcasa.hexSeg s i with
      | nil =>
        have : (emhcasa.hexSeg s i).length = 2 := by
          simp only [emhcasa.hexSeg, List.length_take, List.length_drop, hlen]
          omega
        rw [hl] at this
        cases this
      | cons a l => rfl
    have hall : ∀ i : Nat, i ≤ 8 →
        (parseHexDigits (emhcasa.hexSeg s i)).isSome =
          (emhcasa.hexSeg s i).all isHexDigitChar := by
      intro i hi
      rw [parseHexDigits_isSome, hne i hi]
      rfl
    have key : (emhcasa.convertToOBIS s).isSome =
        ((emhcasa.hexSeg s 4).all isHexDigitChar &&
         ((emhcasa.hexSeg s 6).all isHexDigitChar &&
          (emhcasa.hexSeg s 8).all isHexDigitChar)) := by
      unfold emhcasa.convertToOBIS
      rw [if_neg (by simp [hlen])]
      rw [goParseIntHex_signFree _ (hsub 4), goParseIntHex_signFree _ (hsub 6),
        goParseIntHex_signFree _ (hsub 8)]
      rw [← hall 4 (by omega), ← hall 6 (by omega), ← hall 8 (by omega)]
      rcases h4 : parseHexDigits (emhcasa.hexSeg s 4) with _ | x <;>
        rcases h6 : parseHexDigits (emhcasa.hexSeg s 6) with _ | y <;>
        rcases h8 : parseHexDigits (emhcasa.hexSeg s 8) with _ | z <;>
        simp
    rw [key]
    simp [hlen, Bool.and_eq_true]
  · have hnone : emhcasa.convertToOBIS s = none := by
      unfold emhcasa.convertToOBIS
      rw [if_pos hlen]
    simp [hnone, hlen]

/-- The PPC unit inference coincides with the spec-side fixed-set
description. -/
theorem ppc_determineUnit_spec (code : String) :
    ppc.determineUnit code = specDetermineUnit code := by
  unfold ppc.determineUnit specDetermineUnit
  rcases hsp : splitOnChar '.' code.toList with _ | ⟨p0, _ | ⟨p1, rest⟩⟩
  · rfl
  · rfl
  · show (if p1 = "8".toList then 30 else _) = (if p1 = "8".toList then 30 else _)
    split_ifs <;> simp_all

theorem Description_default (code : String)
    (h : code ∉ SMGW.obis.descriptions.map Prod.fst) :
    SMGW.obis.Description code = "Unknown OBIS code: " ++ code := by
  unfold obis.Description
  rw [assocLookup_eq_none code _ h]

end SMGW


/-!
## Claim theorems
-/

/-- C1, counterexample: the Theben client returns a successful
`Information` whose `Readings` mapping is empty when the decoded readings
response has no channels — no `NoReadingsFound`-style failure occurs. -/
theorem C1_counterexample :
    (SMGW.theben.GetReadings 0 ⟨"fw", "Theben", "Conexa"⟩ "up1" []).toOption =
      some
        { name := "up1", model := "Conexa", manufacturer := "Theben",
          firmwareVersion := "fw", lastUpdate := 0, readings := [] } := by
  decide

/-- C1 (amended): the EMH CASA and PPC clients never return a successful
`Information` with an empty `Readings` mapping — when the assembled
mapping is empty the call fails; the Theben client lacks this check. -/
theorem C1_theorem :
    (∀ (now : Nat) (meterID : String) (mr : SMGW.emhcasa.MeterReading)
        (info : SMGW.Information),
        SMGW.emhcasa.GetReadings now meterID mr = Except.ok info →
        info.readings ≠ []) ∧
    (∀ (now : Nat) (meterID : String) (rows : List SMGW.ppc.Row)
        (info : SMGW.Information),
        SMGW.ppc.GetReadings now meterID rows = Except.ok info →
        info.readings ≠ []) :=
  ⟨fun now mid mr info h => (SMGW.emh_GetReadings_ok now mid mr info h).2,
   SMGW.ppc_GetReadings_ok⟩

/-- C1, witness: both non-emptiness guarantees at concrete successful
fetches. -/
theorem C1_witness :
    ({ name := "m", model := "EMH CASA 1.1", manufacturer := "EMH",
       firmwareVersion := "", lastUpdate := 0,
       readings :=
         SMGW.emhcasa.buildReadings 0 [⟨"2500", 27, 0, "0100100700FF"⟩] } :
      SMGW.Information).readings ≠ [] ∧
    ({ name := "p", model := "PPC SMGW", manufacturer := "PPC",
       firmwareVersion := "", lastUpdate := 0,
       readings := SMGW.ppc.extractRows 0 [⟨"16.7.0", "2500", ""⟩] } :
      SMGW.Information).readings ≠ [] :=
  ⟨C1_theorem.1 0 "m" ⟨[⟨"2500", 27, 0, "0100100700FF"⟩]⟩ _ rfl,
   C1_theorem.2 0 "p" [⟨"16.7.0", "2500", ""⟩] _ rfl⟩

/-- C2: the claim says an EMH CASA raw entry with a non-numeric value is
skipped, so three entries with one unparsable value yield two readings.
The code instead discards the parse error inside `convertReading` and
inserts a reading with value 0: the same fetch yields three readings, the
unparsable entry appearing under key `1.8.0` with value 0, while the v1
`GetMeterValues` loop of the same repository skips it and yields two. -/
theorem C2_code_evaluation :
    (SMGW.emhcasa.GetReadings 0 "m"
        ⟨[⟨"2500", 27, 0, "0100100700FF"⟩,
          ⟨"abc", 30, 0, "0100010800FF"⟩,
          ⟨"12345", 30, 0, "0100020800FF"⟩]⟩).toOption.map
      (fun i => i.readings.map Prod.fst) =
      some ["16.7.0", "1.8.0", "2.8.0"] ∧
    SMGW.goParseFloat "abc" = none ∧
    (SMGW.emhcasa.convertReading 0 ⟨"abc", 30, 0, "0100010800FF"⟩
      "1.8.0").value = 0 ∧
    (SMGW.emhcasa.legacyMeterValuesLoop
        [⟨"2500", 27, 0, "0100100700FF"⟩,
         ⟨"abc", 30, 0, "0100010800FF"⟩,
         ⟨"12345", 30, 0, "0100020800FF"⟩]).map Prod.fst =
      ["16.7.0", "2.8.0"] := by
  refine ⟨by decide, by decide, ?_, by decide⟩
  show ((0 : ℚ) * (10 : ℚ) ^ (0 : Nat)) / 1000 = 0
  norm_num

/-- C3, counterexample: the Theben client inserts the medium-prefixed key
`1-0:1.8.0`, which is not of the `C.D.E` form. -/
theorem C3_counterexample :
    (SMGW.theben.buildReadings 0 [⟨[⟨"0100010800FF", "1000", ""⟩]⟩]).map
        Prod.fst = ["1-0:1.8.0"] ∧
    SMGW.isStandardCode "1-0:1.8.0" = false := by
  decide

/-- C3 (amended): keys inserted by the EMH CASA client are StandardCodes
of the form `C.D.E` whenever the logical names are sign-free; the Theben
client inserts keys of the medium-prefixed form `1-0:C.D.E`; the PPC
client inserts the scraped OBIS cell text verbatim. -/
theorem C3_theorem :
    (∀ (now : Nat) (vs : List SMGW.emhcasa.MeterValue) (k : String),
        (∀ item ∈ vs, SMGW.signFree item.logicalName = true) →
        k ∈ (SMGW.emhcasa.buildReadings now vs).map Prod.fst →
        SMGW.isStandardCode k = true) ∧
    (∀ s : String, SMGW.theben.convertOBIS s ≠ "" →
        SMGW.isPrefixedStandard (SMGW.theben.convertOBIS s) = true) ∧
    (∀ (now : Nat) (rows : List SMGW.ppc.Row) (k : String),
        k ∈ (SMGW.ppc.extractRows now rows).map Prod.fst →
        k ∈ rows.map (fun r => r.obis)) := by
  refine ⟨?_, ?_, ?_⟩
  · intro now vs k hsf hk
    obtain ⟨item, hitem, hconv⟩ := SMGW.emh_buildReadings_keys now vs k hk
    exact SMGW.convertToOBIS_standard _ _ (hsf item hitem) hconv
  · intro s hne
    rcases SMGW.theben_convertOBIS_cases s with h | h
    · exact absurd h hne
    · have hv : ∀ v ∈ SMGW.theben.obisMappings.map Prod.snd,
          SMGW.isPrefixedStandard v = true := by decide
      exact hv _ h
  · intro now rows k hk
    obtain ⟨r, hr, heq⟩ := SMGW.ppc_extractRows_keys now rows k hk
    exact List.mem_map.mpr ⟨r, hr, heq⟩

/-- C3, witness: the three key-shape guarantees at concrete inputs. -/
theorem C3_witness :
    SMGW.isStandardCode "16.7.0" = true ∧
    SMGW.isPrefixedStandard (SMGW.theben.convertOBIS "0100010800FF") = true ∧
    "1.8.0" ∈ ([⟨"1.8.0", "5", "t"⟩] : List SMGW.ppc.Row).map
      (fun r => r.obis) :=
  ⟨C3_theorem.1 0 [⟨"2500", 27, 0, "0100100700FF"⟩] "16.7.0" (by decide)
      (by decide),
   C3_theorem.2.1 "0100010800FF" (by decide),
   C3_theorem.2.2 0 [⟨"1.8.0", "5", "t"⟩] "1.8.0" (by decide)⟩

/-- C4, counterexample: EMH CASA meter discovery with one fetched
candidate that fails the preference test (no sensor domains) returns an
error instead of falling back to the first candidate, so the two-tier
preferred/fallback selection is not uniform across vendors. -/
theorem C4_counterexample :
    SMGW.emhcasa.discoverMeterID [some ⟨"7", []⟩] =
      Except.error "no contract with sensor domains found" := by
  decide

/-- C4 (amended): the Theben client implements the two-tier selection
(first candidate satisfying the preference predicate, else the first
candidate of a non-empty list, else an error on the empty list); the
EMH CASA client returns the first sensor domain of the first contract
carrying one and fails when no contract qualifies, with no fallback to
the first candidate. -/
theorem C4_theorem :
    (∀ (pre post : List SMGW.theben.UsagePoint) (up : SMGW.theben.UsagePoint),
        (∀ u ∈ pre, SMGW.theben.preferredUsagePoint u = false) →
        SMGW.theben.preferredUsagePoint up = true →
        SMGW.theben.getUsagePointID (pre ++ up :: post) = Except.ok up.id) ∧
    (∀ (u : SMGW.theben.UsagePoint) (rest : List SMGW.theben.UsagePoint),
        (∀ x ∈ u :: rest, SMGW.theben.preferredUsagePoint x = false) →
        SMGW.theben.getUsagePointID (u :: rest) = Except.ok u.id) ∧
    (SMGW.theben.getUsagePointID [] =
      Except.error "no usage points found") ∧
    (∀ (pre post : List (Option SMGW.emhcasa.DerivedContract))
        (dc : SMGW.emhcasa.DerivedContract) (d : String) (ds : List String),
        (∀ x ∈ pre, SMGW.contractSkipped x = true) →
        dc.sensorDomains = d :: ds →
        SMGW.emhcasa.discoverMeterID (pre ++ some dc :: post) =
          Except.ok d) ∧
    (∀ cs : List (Option SMGW.emhcasa.DerivedContract),
        (∀ x ∈ cs, SMGW.contractSkipped x = true) →
        SMGW.emhcasa.discoverMeterID cs =
          Except.error "no contract with sensor domains found") :=
  ⟨SMGW.theben_select_preferred, SMGW.theben_select_fallback,
   SMGW.theben_select_empty, SMGW.emh_discover_first, SMGW.emh_discover_none⟩

/-- C4, witness: the selection behaviors at concrete candidate lists. -/
theorem C4_witness :
    SMGW.theben.getUsagePointID
        [⟨"a", "stopped", "7"⟩, ⟨"b", "running", "7"⟩,
         ⟨"c", "running", "1"⟩] = Except.ok "b" ∧
    SMGW.theben.getUsagePointID
        [⟨"a", "stopped", "7"⟩, ⟨"c", "running", "1"⟩] = Except.ok "a" ∧
    SMGW.emhcasa.discoverMeterID
        [none, some ⟨"x", []⟩, some ⟨"7", ["sd1", "sd2"]⟩] =
      Except.ok "sd1" ∧
    SMGW.emhcasa.discoverMeterID [some ⟨"9", []⟩, none] =
      Except.error "no contract with sensor domains found" :=
  ⟨C4_theorem.1 [⟨"a", "stopped", "7"⟩] [⟨"c", "running", "1"⟩]
      ⟨"b", "running", "7"⟩ (by decide) (by decide),
   C4_theorem.2.1 ⟨"a", "stopped", "7"⟩ [⟨"c", "running", "1"⟩] (by decide),
   C4_theorem.2.2.2.1 [none, some ⟨"x", []⟩] [] ⟨"7", ["sd1", "sd2"]⟩
      "sd1" ["sd2"] (by decide) rfl,
   C4_theorem.2.2.2.2 [some ⟨"9", []⟩, none] (by decide)⟩

/-- C5: the hex-logical-name converter satisfies the fixed test vectors
and ignores a decimal suffix. -/
theorem C5_theorem :
    SMGW.emhcasa.convertToOBIS "0100100700FF" = some "16.7.0" ∧
    SMGW.emhcasa.convertToOBIS "0100010800FF" = some "1.8.0" ∧
    SMGW.emhcasa.convertToOBIS "0100020800FF" = some "2.8.0" ∧
    SMGW.emhcasa.convertToOBIS "0100100700FF.1" =
      SMGW.emhcasa.convertToOBIS "0100100700FF" := by
  decide

/-- C6: value normalization multiplies the parsed raw value by ten raised
to the scale exponent and divides by 1000 exactly for the WattHour tag 30;
no other unit tag receives an additional transform; and the fixed test
values hold: normalize("2500",0,Watt)=2500, normalize("5",2,Watt)=500,
normalize("123450",0,WattHour)=123.45, normalize("153",-1,Ampere)=15.3. -/
theorem C6_theorem :
    (∀ (now : Nat) (item : SMGW.emhcasa.MeterValue) (obis : String),
        item.unit = (30 : Int) →
        (SMGW.emhcasa.convertReading now item obis).value =
          ((SMGW.goParseFloat item.value).getD 0) *
            SMGW.pow10 item.scaler / 1000) ∧
    (∀ (now : Nat) (item : SMGW.emhcasa.MeterValue) (obis : String),
        item.unit ≠ (30 : Int) →
        (SMGW.emhcasa.convertReading now item obis).value =
          ((SMGW.goParseFloat item.value).getD 0) * SMGW.pow10 item.scaler) ∧
    (SMGW.emhcasa.convertReading 0 ⟨"2500", 27, 0, ""⟩ "p").value = 2500 ∧
    (SMGW.emhcasa.convertReading 0 ⟨"5", 27, 2, ""⟩ "p").value = 500 ∧
    (SMGW.emhcasa.convertReading 0 ⟨"123450", 30, 0, ""⟩ "p").value =
      (123.45 : ℚ) ∧
    (SMGW.emhcasa.convertReading 0 ⟨"153", 33, -1, ""⟩ "p").value =
      (15.3 : ℚ) := by
  refine ⟨?_, ?_, ?_, ?_, ?_, ?_⟩
  · intro now item obis h
    rw [SMGW.convertReading_value, if_pos h]
  · intro now item obis h
    rw [SMGW.convertReading_value, if_neg h]
  · show ((SMGW.digitsToNat ['2', '5', '0', '0'] : ℚ) +
        (SMGW.digitsToNat [] : ℚ) / (10 : ℚ) ^ (0 : Nat)) *
        (10 : ℚ) ^ (0 : Nat) = 2500
    rw [show SMGW.digitsToNat ['2', '5', '0', '0'] = 2500 from rfl,
      show SMGW.digitsToNat [] = 0 from rfl]
    norm_num
  · show ((SMGW.digitsToNat ['5'] : ℚ) +
        (SMGW.digitsToNat [] : ℚ) / (10 : ℚ) ^ (0 : Nat)) *
        (10 : ℚ) ^ (2 : Nat) = 500
    rw [show SMGW.digitsToNat ['5'] = 5 from rfl,
      show SMGW.digitsToNat [] = 0 from rfl]
    norm_num
  · show (((SMGW.digitsToNat ['1', '2', '3', '4', '5', '0'] : ℚ) +
        (SMGW.digitsToNat [] : ℚ) / (10 : ℚ) ^ (0 : Nat)) *
        (10 : ℚ) ^ (0 : Nat)) / 1000 = (123.45 : ℚ)
    rw [show SMGW.digitsToNat ['1', '2', '3', '4', '5', '0'] = 123450 from rfl,
      show SMGW.digitsToNat [] = 0 from rfl]
    norm_num
  · show ((SMGW.digitsToNat ['1', '5', '3'] : ℚ) +
        (SMGW.digitsToNat [] : ℚ) / (10 : ℚ) ^ (0 : Nat)) *
        (1 / (10 : ℚ) ^ (0 + 1 : Nat)) = (15.3 : ℚ)
    rw [show SMGW.digitsToNat ['1', '5', '3'] = 153 from rfl,
      show SMGW.digitsToNat [] = 0 from rfl]
    norm_num

/-- C6, witness: the two normalization formulas at concrete raw entries
with unit tags 30 and 27. -/
theorem C6_witness :
    (SMGW.emhcasa.convertReading 0 ⟨"123450", 30, 0, ""⟩ "p").value =
      ((SMGW.goParseFloat "123450").getD 0) * SMGW.pow10 0 / 1000 ∧
    (SMGW.emhcasa.convertReading 0 ⟨"2500", 27, 0, ""⟩ "p").value =
      ((SMGW.goParseFloat "2500").getD 0) * SMGW.pow10 0 :=
  ⟨C6_theorem.1 0 ⟨"123450", 30, 0, ""⟩ "p" rfl,
   C6_theorem.2.1 0 ⟨"2500", 27, 0, ""⟩ "p" (by decide)⟩

/-- C7, counterexample: on `"0100+10800FF"` the hex portion has length 12
and the extracted segment at offsets 4-5 is `+1`, which is not a pair of
hexadecimal digits, yet `convertToOBIS` succeeds, because Go
`strconv.ParseInt` accepts a leading sign. -/
theorem C7_counterexample :
    (SMGW.emhcasa.hexPortion "0100+10800FF").length = 12 ∧
    (SMGW.emhcasa.hexSeg "0100+10800FF" 4).all SMGW.isHexDigitChar = false ∧
    SMGW.emhcasa.convertToOBIS "0100+10800FF" = some "1.8.0" := by
  decide

/-- C7 (amended): for sign-free inputs, `convertToOBIS` returns an error
exactly when the hex portion length differs from 12 or one of the three
extracted two-character segments is not valid hexadecimal; the examples
`"010010"` and `"0100ZZZZ00FF"` fail. -/
theorem C7_theorem :
    (∀ s : String, SMGW.signFree s = true →
        ((SMGW.emhcasa.convertToOBIS s).isSome = true ↔
          ((SMGW.emhcasa.hexPortion s).length = 12 ∧
           (SMGW.emhcasa.hexSeg s 4).all SMGW.isHexDigitChar = true ∧
           (SMGW.emhcasa.hexSeg s 6).all SMGW.isHexDigitChar = true ∧
           (SMGW.emhcasa.hexSeg s 8).all SMGW.isHexDigitChar = true))) ∧
    SMGW.emhcasa.convertToOBIS "010010" = none ∧
    SMGW.emhcasa.convertToOBIS "0100ZZZZ00FF" = none :=
  ⟨SMGW.convertToOBIS_isSome_iff, by decide, by decide⟩

/-- C7, witness: the success characterization at a concrete sign-free
input. -/
theorem C7_witness :
    (SMGW.emhcasa.convertToOBIS "0100100700FF").isSome = true ↔
      ((SMGW.emhcasa.hexPortion "0100100700FF").length = 12 ∧
       (SMGW.emhcasa.hexSeg "0100100700FF" 4).all SMGW.isHexDigitChar = true ∧
       (SMGW.emhcasa.hexSeg "0100100700FF" 6).all SMGW.isHexDigitChar = true ∧
       (SMGW.emhcasa.hexSeg "0100100700FF" 8).all
         SMGW.isHexDigitChar = true) :=
  C7_theorem.1 "0100100700FF" (by decide)

/-- C8: the PPC code-pattern unit inference is total and coincides, for
every input string, with the fixed-set description of the spec: second
segment 8 gives WattHour (30); second segment 7 gives Watt (27) for first
segment in {16,36,56,76}, Ampere (33) for {31,51,71}, Volt (35) for
{32,52,72}, Hertz (44) for {14}; everything else defaults to Watt. -/
theorem C8_theorem (code : String) :
    SMGW.ppc.determineUnit code = SMGW.specDetermineUnit code :=
  SMGW.ppc_determineUnit_spec code

/-- C9, counterexample: the default description is prefixed with
`"Unknown OBIS code: "`, not `"Unknown code: "` as the claim states. -/
theorem C9_counterexample :
    SMGW.obis.Description "99.99.99" = "Unknown OBIS code: 99.99.99" ∧
    SMGW.obis.Description "99.99.99" ≠ "Unknown code: " ++ "99.99.99" := by
  decide

/-- C9 (amended): the registry lookup is total — registered codes map to
their fixed descriptions and every other code maps to the default string
`"Unknown OBIS code: "` followed by the code. -/
theorem C9_theorem :
    (∀ p ∈ SMGW.obis.descriptions, SMGW.obis.Description p.1 = p.2) ∧
    (∀ code : String, code ∉ SMGW.obis.descriptions.map Prod.fst →
        SMGW.obis.Description code = "Unknown OBIS code: " ++ code) :=
  ⟨by decide, SMGW.Description_default⟩

/-- C9, witness: one registered code and one unregistered code. -/
theorem C9_witness :
    SMGW.obis.Description "16.7.0" = "Current active power (W)" ∧
    SMGW.obis.Description "99.99.99" = "Unknown OBIS code: " ++ "99.99.99" :=
  ⟨C9_theorem.1 ("16.7.0", "Current active power (W)") (by decide),
   C9_theorem.2 "99.99.99" (by decide)⟩

/-- C10, counterexample: `convertToOBIS "0100-10800FF"` succeeds with
output `"-1.8.0"`, whose first numeral carries a sign, so not every
successful conversion is a valid StandardCode. -/
theorem C10_counterexample :
    SMGW.emhcasa.convertToOBIS "0100-10800FF" = some "-1.8.0" ∧
    SMGW.isStandardCode "-1.8.0" = false := by
  decide

/-- C10 (amended): on sign-free inputs, every successful `convertToOBIS`
output is a StandardCode of exactly three dot-separated segments, each a
canonical decimal numeral (no sign, no leading zeros) of a value between
0 and 255. -/
theorem C10_theorem (s out : String) (hs : SMGW.signFree s = true)
    (h : SMGW.emhcasa.convertToOBIS s = some out) :
    SMGW.isStandardCode out = true ∧
    (SMGW.splitOnChar '.' out.toList).length = 3 ∧
    (SMGW.splitOnChar '.' out.toList).all SMGW.isCanonicalByteSeg = true := by
  obtain ⟨x, y, z, hx, hy, hz, hshape⟩ :=
    SMGW.convertToOBIS_signFree s out hs h
  have hsplit : SMGW.splitOnChar '.' out.toList =
      [SMGW.natDigits x, SMGW.natDigits y, SMGW.natDigits z] := by
    rw [hshape]
    exact SMGW.splitOnChar_three _ _ _
      (SMGW.not_dot_of_digitSeg _ (SMGW.natDigits_digitSeg x))
      (SMGW.not_dot_of_digitSeg _ (SMGW.natDigits_digitSeg y))
      (SMGW.not_dot_of_digitSeg _ (SMGW.natDigits_digitSeg z))
  refine ⟨?_, ?_, ?_⟩
  · exact SMGW.isStandardCode_toList out _ _ _ hshape
      (SMGW.natDigits_digitSeg x) (SMGW.natDigits_digitSeg y)
      (SMGW.natDigits_digitSeg z)
  · rw [hsplit]
    rfl
  · rw [hsplit]
    simp [SMGW.natDigits_canonical x hx, SMGW.natDigits_canonical y hy,
      SMGW.natDigits_canonical z hz]

/-- C10, witness: the StandardCode shape of a concrete conversion. -/
theorem C10_witness :
    SMGW.isStandardCode "16.7.0" = true ∧
    (SMGW.splitOnChar '.' "16.7.0".toList).length = 3 ∧
    (SMGW.splitOnChar '.' "16.7.0".toList).all SMGW.isCanonicalByteSeg =
      true :=
  C10_theorem "0100100700FF" "16.7.0" (by decide) (by decide)
